import Mathlib

/-!
Verification of the lookup-record normalization pipeline of this repository.
The Python sources embedded here are the lookup importer class (its
routines `import_zip_to_market`, `import_hospital_list`,
`import_hospital_systems`, `save_to_database`, `save_to_json`) and the
country-code mapping used by the airport/airline transform scripts.
Raw delimited rows are modelled as `List String` (the fields produced by
the csv reader, an external collaborator), raw lines as `String`.
-/

/-! ## Python string primitives -/

/-- Python `str.strip()`: drop leading and trailing whitespace characters. -/
def pyStrip (s : String) : String :=
  String.mk (((s.data.dropWhile Char.isWhitespace).reverse.dropWhile Char.isWhitespace).reverse)

/-- Python `str.strip(c)` for a single character `c`: drop leading and
trailing occurrences of `c`. -/
def pyStripChar (c : Char) (s : String) : String :=
  String.mk (((s.data.dropWhile (· == c)).reverse.dropWhile (· == c)).reverse)

/-- Python `str.lower()` (ASCII case folding). -/
def pyLower (s : String) : String :=
  String.mk (s.data.map Char.toLower)

/-- Python `str.replace(' ', '-')`: replace every space with a hyphen. -/
def dashSpaces (s : String) : String :=
  String.mk (s.data.map (fun c => if c = ' ' then '-' else c))

/-- Whether the character sequence `sep` occurs (contiguously) inside `l`. -/
def containsSub (sep : List Char) : List Char → Bool
  | [] => sep.isEmpty
  | l@(_ :: cs) => sep.isPrefixOf l || containsSub sep cs

/-- Whether the string `sep` occurs inside `s`. -/
def strContains (sep s : String) : Bool :=
  containsSub sep.data s.data

/-- Prepend a character onto the first piece of a split result. -/
def consHead (c : Char) : List (List Char) → List (List Char)
  | [] => [[c]]
  | p :: ps => (c :: p) :: ps

/-- Fuel-indexed core of Python `str.split(sep)` for a non-empty separator:
greedy left-to-right scan for non-overlapping occurrences of `sep`.
With `fuel ≥ l.length` the fuel never runs out. -/
def splitFuel (sep : List Char) : Nat → List Char → List (List Char)
  | _, [] => [[]]
  | 0, l => [l]
  | fuel + 1, c :: cs =>
    if sep.isPrefixOf (c :: cs) && !sep.isEmpty then
      [] :: splitFuel sep fuel (cs.drop (sep.length - 1))
    else
      consHead c (splitFuel sep fuel cs)

/-- Python `str.split(sep)` on character lists (non-empty `sep`). -/
def pySplitL (sep l : List Char) : List (List Char) :=
  splitFuel sep l.length l

/-- Python `str.split(sep)` on strings (non-empty `sep`). -/
def pySplitStr (sep s : String) : List String :=
  (pySplitL sep.data s.data).map String.mk

/-- Interpose `sep` between the pieces (inverse direction of the split). -/
def joinWithL (sep : List Char) : List (List Char) → List Char
  | [] => []
  | [x] => x
  | x :: y :: xs => x ++ sep ++ joinWithL sep (y :: xs)

/-- Interpose `sep` between the strings. -/
def joinWith (sep : String) : List String → String
  | [] => ""
  | [x] => x
  | x :: y :: xs => x ++ sep ++ joinWith sep (y :: xs)

/-! ## Data model: canonical lookup records -/

/-- A metadata value: the importer only ever stores strings and booleans. -/
inductive MVal where
  | str : String → MVal
  | bool : Bool → MVal
deriving DecidableEq, Repr

/-- The `value` payload: `{"value": ..., "text": ...}`. -/
structure LookupValue where
  value : String
  text : String
deriving DecidableEq, Repr

/-- A canonical lookup record as built by the importer routines.
The Python dict field `namespace` is called `ns` here (`namespace` is a
Lean keyword); `metadata` keeps the dict's insertion order. -/
structure LookupRecord where
  ns : String
  key : String
  value : LookupValue
  parent_key : Option String
  metadata : List (String × MVal)
deriving DecidableEq, Repr

/-- Look up a metadata key, expecting a string value. -/
def metaStr (rec : LookupRecord) (k : String) : Option String :=
  match rec.metadata.lookup k with
  | some (MVal.str s) => some s
  | _ => none

/-- Look up a metadata key, expecting a boolean value. -/
def metaB (rec : LookupRecord) (k : String) : Option Bool :=
  match rec.metadata.lookup k with
  | some (MVal.bool b) => some b
  | _ => none

/-! ## Row normalizer: ZIP-to-market (delimited two-column format) -/

/-- `row[0].strip()` — the market code of a row. -/
def rowMarketCode (row : List String) : String :=
  pyStrip (row.getD 0 "")

/-- `row[1].strip()` — the ZIP code of a row. -/
def rowZipCode (row : List String) : String :=
  pyStrip (row.getD 1 "")

/-- One child record of the ZIP-to-market importer. -/
def zipLookup (row : List String) : LookupRecord :=
  { ns := "zip-codes"
    key := rowZipCode row
    value := { value := rowZipCode row, text := "ZIP " ++ rowZipCode row }
    parent_key := some (rowMarketCode row)
    metadata := [("market_code", MVal.str (rowMarketCode row)),
                 ("type", MVal.str "zip_code")] }

/-- One parent (market area) record. -/
def marketLookup (market : String) : LookupRecord :=
  { ns := "market-areas"
    key := market
    value := { value := market, text := "Market " ++ market }
    parent_key := none
    metadata := [("type", MVal.str "market_area")] }

/-- The rows that pass the `len(row) >= 2` check. -/
def validZipRows (rows : List (List String)) : List (List String) :=
  rows.filter (fun r => 2 ≤ r.length)

/-- The distinct market codes observed over the run (the `markets` set,
as the deduplicated list of first-occurrences). -/
def markets (rows : List (List String)) : List String :=
  ((validZipRows rows).map rowMarketCode).dedup

/-- `sorted(markets)`: the distinct market codes in ascending order. -/
def sortedMarkets (rows : List (List String)) : List String :=
  List.insertionSort (fun a b => a ≤ b) (markets rows)

/-- The parent records (`market_lookups` in the source). -/
def market_lookups (rows : List (List String)) : List LookupRecord :=
  (sortedMarkets rows).map marketLookup

/-- The child records (`zip_lookups` in the source). -/
def zip_lookups (rows : List (List String)) : List LookupRecord :=
  (validZipRows rows).map zipLookup

/-- The records one `import_zip_to_market` run appends to the accumulation:
`self.lookups.extend(market_lookups); self.lookups.extend(zip_lookups)`. -/
def import_zip_to_market (rows : List (List String)) : List LookupRecord :=
  market_lookups rows ++ zip_lookups rows

/-! ## Row normalizer: hospital list (three-column quoted format) -/

/-- The record built from one hospital row (assuming the row passed the
`len(row) >= 3` check). -/
def hospitalLookup (row : List String) : LookupRecord :=
  let hospital_code := pyStripChar '"' (row.getD 0 "")
  let hospital_name := pyStripChar '"' (row.getD 2 "")
  let parts := pySplitStr " - " hospital_name
  let name := parts.headD hospital_name
  let location := (parts.drop 1).headD ""
  { ns := "hospitals"
    key := hospital_code
    value := { value := hospital_code, text := hospital_name }
    parent_key := none
    metadata := [("type", MVal.str "hospital"),
                 ("name", MVal.str name),
                 ("location", MVal.str location)] }

/-- Zero-or-one record for a hospital row: the `len(row) >= 3` guard. -/
def hospitalRow? (row : List String) : Option LookupRecord :=
  if 3 ≤ row.length then some (hospitalLookup row) else none

/-- The records one `import_hospital_list` run appends to the accumulation. -/
def import_hospital_list (rows : List (List String)) : List LookupRecord :=
  rows.filterMap hospitalRow?

/-! ## Row normalizer: hospital systems (tab-delimited format) -/

/-- The record built from one (already trimmed, non-empty) hospital-system
line that passed the `len(parts) >= 2` check. -/
def systemLookup (line : String) : LookupRecord :=
  let parts := pySplitStr "\t" line
  let system_name := pyStrip (parts.getD 0 "")
  let system_code := pyStrip (parts.getD 1 "")
  let name_parts := pySplitStr " - " system_name
  let name := name_parts.headD system_name
  let location := (name_parts.drop 1).headD ""
  { ns := "hospital-systems"
    key := system_code
    value := { value := system_code, text := system_name }
    parent_key := none
    metadata := [("type", MVal.str "hospital_system"),
                 ("name", MVal.str name),
                 ("location", MVal.str location),
                 ("is_special", MVal.bool (system_code == "-1"))] }

/-- Zero-or-one record for a raw line: `line = line.strip(); if line:`
then split on tab and require at least two parts. -/
def systemLine? (rawLine : String) : Option LookupRecord :=
  let line := pyStrip rawLine
  if line ≠ "" ∧ 2 ≤ (pySplitStr "\t" line).length then some (systemLookup line)
  else none

/-- The records one `import_hospital_systems` run appends to the accumulation. -/
def import_hospital_systems (lines : List String) : List LookupRecord :=
  lines.filterMap systemLine?

/-- The trimmed second tab-separated field of a line (the system code). -/
def syscode (rawLine : String) : String :=
  pyStrip ((pySplitStr "\t" (pyStrip rawLine)).getD 1 "")

/-! ## Country-name-to-code mapping (airport/airline transform scripts) -/

/-- The fixed country-name-to-code table (`country_to_code` /
`country_map` in the transform scripts). -/
def country_to_code : List (String × String) :=
  [("United States", "us"), ("China", "cn"), ("United Arab Emirates", "ae"),
   ("Japan", "jp"), ("United Kingdom", "gb"), ("France", "fr"),
   ("Germany", "de"), ("Spain", "es"), ("Netherlands", "nl"),
   ("Turkey", "tr"), ("India", "in"), ("Indonesia", "id"),
   ("Canada", "ca"), ("South Korea", "kr"), ("Mexico", "mx"),
   ("Thailand", "th"), ("Malaysia", "my"), ("Saudi Arabia", "sa"),
   ("Australia", "au"), ("Singapore", "sg"), ("Italy", "it"),
   ("Russia", "ru"), ("Brazil", "br"), ("Switzerland", "ch"),
   ("Taiwan", "tw")]

/-- `country_to_code.get(name, name.lower().replace(' ', '-'))`. -/
def country_code_of (name : String) : String :=
  match country_to_code.lookup name with
  | some c => c
  | none => dashSpaces (pyLower name)

/-- One parsed source row of `airports.csv`. -/
structure AirportSource where
  code : String
  name_with_code : String
  city : String
  country : String
deriving DecidableEq, Repr

/-- One parsed source row of `airlines.csv`. -/
structure AirlineSource where
  code : String
  name : String
  country : String
  alliance : String
deriving DecidableEq, Repr

/-- One output row of `airports_upload.csv`. -/
structure AirportUpload where
  key : String
  value : String
  text : String
  city : String
  country : String
  iata_code : String
deriving DecidableEq, Repr

/-- One output row of `airlines_upload.csv`. -/
structure AirlineUpload where
  key : String
  value : String
  text : String
  country : String
  alliance : String
  iata_code : String
deriving DecidableEq, Repr

/-- The per-row airport transform of the upload scripts. -/
def transform_airport (r : AirportSource) : AirportUpload :=
  { key := pyLower r.code
    value := pyLower r.code
    text := r.name_with_code
    city := dashSpaces (pyLower r.city)
    country := country_code_of r.country
    iata_code := r.code }

/-- The per-row airline transform of the upload scripts. -/
def transform_airline (r : AirlineSource) : AirlineUpload :=
  { key := pyLower r.code
    value := pyLower r.code
    text := r.name ++ " (" ++ r.code ++ ")"
    country := country_code_of r.country
    alliance := dashSpaces (pyLower r.alliance)
    iata_code := r.code }

/-! ## Batch sink: bulk store load -/

/-- Observable outcome of one `save_to_database` call: whether a store
connection was opened, and how many rows went into the bulk copy
(one row per accumulated lookup). -/
structure DBSinkTrace where
  connectionOpened : Bool
  rowsWritten : Nat
deriving DecidableEq, Repr

/-- `save_to_database`: `if not self.lookups: return` before any
connection is opened; otherwise one row per accumulated lookup is
submitted in a single bulk copy. -/
def save_to_database (lookups : List LookupRecord) : DBSinkTrace :=
  if lookups.isEmpty then { connectionOpened := false, rowsWritten := 0 }
  else { connectionOpened := true, rowsWritten := lookups.length }

/-! ## Batch sink: review-file serialization -/

/-- The structured-text document, modelled as a JSON value; object
fields keep their construction order. -/
inductive Json where
  | str : String → Json
  | bool : Bool → Json
  | null : Json
  | obj : List (String × Json) → Json
  | arr : List Json → Json

/-- Serialize a metadata value. -/
def mvalJson : MVal → Json
  | MVal.str s => Json.str s
  | MVal.bool b => Json.bool b

/-- Serialize one record the way the importer builds its dicts:
namespace, key, value, parent_key, metadata, in that order. -/
def recordJson (r : LookupRecord) : Json :=
  Json.obj [("namespace", Json.str r.ns),
            ("key", Json.str r.key),
            ("value", Json.obj [("value", Json.str r.value.value),
                                ("text", Json.str r.value.text)]),
            ("parent_key", (match r.parent_key with
                            | some k => Json.str k
                            | none => Json.null)),
            ("metadata", Json.obj (r.metadata.map (fun p => (p.1, mvalJson p.2))))]

/-- `save_to_json`: dump the accumulated list as one JSON array. -/
def save_to_json (lookups : List LookupRecord) : Json :=
  Json.arr (lookups.map recordJson)

/-- A record as recovered from the review file: the claim compares the
`namespace`, `key` and `value` content. -/
structure ReviewRecord where
  ns : String
  key : String
  value : LookupValue
deriving DecidableEq, Repr

/-- Field access in a JSON object (first binding wins, as in a dict). -/
def jField (fields : List (String × Json)) (k : String) : Option Json :=
  List.lookup k fields

/-- Modelled from the spec: re-reading one record of the review file
(the repository only writes the file; the spec's round-trip property
re-reads it). Extracts the namespace, key and value payload. -/
def parseReview (j : Json) : Option ReviewRecord :=
  match j with
  | Json.obj fields =>
    match jField fields "namespace", jField fields "key", jField fields "value" with
    | some (Json.str n), some (Json.str k), some (Json.obj vf) =>
      match jField vf "value", jField vf "text" with
      | some (Json.str v), some (Json.str t) =>
          some { ns := n, key := k, value := { value := v, text := t } }
      | _, _ => none
    | _, _, _ => none
  | _ => none

/-- Modelled from the spec: re-reading a list of records, failing if any
entry is malformed. -/
def parseReviewList : List Json → Option (List ReviewRecord)
  | [] => some []
  | j :: js =>
    match parseReview j, parseReviewList js with
    | some r, some rs => some (r :: rs)
    | _, _ => none

/-- Modelled from the spec: re-reading the whole review document. -/
def load_from_json : Json → Option (List ReviewRecord)
  | Json.arr items => parseReviewList items
  | _ => none

/-- Projection of a full record to its review content. -/
def reviewOf (r : LookupRecord) : ReviewRecord :=
  { ns := r.ns, key := r.key, value := r.value }

/-! ## Helper lemmas -/

theorem lookup_of_mem_nodupKeys {l : List (String × String)} {k v : String}
    (hnd : (l.map Prod.fst).Nodup) (h : (k, v) ∈ l) : l.lookup k = some v := by
  induction l with
  | nil => cases h
  | cons p t ih =>
    obtain ⟨a, b⟩ := p
    simp only [List.map_cons, List.nodup_cons] at hnd
    rcases List.mem_cons.mp h with heq | hmem
    · obtain ⟨rfl, rfl⟩ := Prod.mk.injEq .. ▸ heq
      simp [List.lookup]
    · have hka : k ≠ a := by
        rintro rfl
        exact hnd.1 (List.mem_map.mpr ⟨(k, v), hmem, rfl⟩)
      simp [List.lookup, beq_eq_false_iff_ne.mpr hka, ih hnd.2 hmem]

theorem lookup_of_not_mem_keys {l : List (String × String)} {k : String}
    (h : k ∉ l.map Prod.fst) : l.lookup k = none := by
  induction l with
  | nil => rfl
  | cons p t ih =>
    obtain ⟨a, b⟩ := p
    simp only [List.map_cons, List.mem_cons] at h
    push_neg at h
    simp [List.lookup, beq_eq_false_iff_ne.mpr h.1, ih h.2]

/-! ## C8 -/

/-- C8: with an empty accumulation the bulk-store sink opens no
connection and reports zero rows written. -/
theorem empty_sink_no_work :
    save_to_database [] = { connectionOpened := false, rowsWritten := 0 } := rfl

/-! ## C7 -/

/-- C7: one ZIP-to-market run appends the derived parent records before
all the buffered child records. -/
theorem parents_before_children : ∀ rows : List (List String),
    import_zip_to_market rows = market_lookups rows ++ zip_lookups rows ∧
    (∀ p ∈ market_lookups rows, p.ns = "market-areas") ∧
    (∀ c ∈ zip_lookups rows, c.ns = "zip-codes") := by
  intro rows
  refine ⟨rfl, ?_, ?_⟩
  · intro p hp
    obtain ⟨m, _, rfl⟩ := List.mem_map.mp hp
    rfl
  · intro c hc
    obtain ⟨r, _, rfl⟩ := List.mem_map.mp hc
    rfl

theorem parents_before_children_witness :
    import_zip_to_market [["A", "1"]] =
      market_lookups [["A", "1"]] ++ zip_lookups [["A", "1"]] ∧
    (marketLookup "A").ns = "market-areas" :=
  ⟨(parents_before_children [["A", "1"]]).1,
   (parents_before_children [["A", "1"]]).2.1 (marketLookup "A") (by decide)⟩

/-! ## C6 -/

/-- C6: a processed tab-delimited line is flagged special exactly when
its trimmed code field is the literal "-1". -/
theorem special_iff_code_neg_one : ∀ (rawLine : String) (rec : LookupRecord),
    systemLine? rawLine = some rec →
    metaB rec "is_special" = some (syscode rawLine == "-1") ∧
    ((syscode rawLine == "-1") = true ↔ syscode rawLine = "-1") := by
  intro rawLine rec h
  simp only [systemLine?] at h
  split at h
  · exact ⟨(Option.some.inj h) ▸ rfl, beq_iff_eq⟩
  · cases h

theorem special_iff_code_neg_one_witness :
    metaB (systemLookup (pyStrip "No preference\t-1")) "is_special" = some true :=
  (special_iff_code_neg_one "No preference\t-1" (systemLookup (pyStrip "No preference\t-1")) rfl).1.trans
    (by decide)

/-! ## C4 -/

/-- C4: the country field of a transformed airport or airline row is the
table's code when the country name is in the fixed table, and the
lowercased hyphen-joined slug of the name otherwise. -/
theorem country_mapping : ∀ (a : AirportSource) (l : AirlineSource) (code : String),
    ((a.country, code) ∈ country_to_code → (transform_airport a).country = code) ∧
    (a.country ∉ country_to_code.map Prod.fst →
      (transform_airport a).country = dashSpaces (pyLower a.country)) ∧
    ((l.country, code) ∈ country_to_code → (transform_airline l).country = code) ∧
    (l.country ∉ country_to_code.map Prod.fst →
      (transform_airline l).country = dashSpaces (pyLower l.country)) := by
  have hnd : (country_to_code.map Prod.fst).Nodup := by decide
  intro a l code
  refine ⟨fun h => ?_, fun h => ?_, fun h => ?_, fun h => ?_⟩
  · simp [transform_airport, country_code_of, lookup_of_mem_nodupKeys hnd h]
  · simp [transform_airport, country_code_of, lookup_of_not_mem_keys h]
  · simp [transform_airline, country_code_of, lookup_of_mem_nodupKeys hnd h]
  · simp [transform_airline, country_code_of, lookup_of_not_mem_keys h]

theorem country_mapping_witness :
    (transform_airport
      { code := "HND", name_with_code := "Haneda (HND)", city := "Tokyo",
        country := "Japan" }).country = "jp" ∧
    (transform_airline
      { code := "XX", name := "Atlantis Air", country := "Atlantis",
        alliance := "None" }).country = "atlantis" := by
  constructor
  · exact (country_mapping
      { code := "HND", name_with_code := "Haneda (HND)", city := "Tokyo", country := "Japan" }
      { code := "XX", name := "Atlantis Air", country := "Atlantis", alliance := "None" }
      "jp").1 (by decide)
  · exact ((country_mapping
      { code := "HND", name_with_code := "Haneda (HND)", city := "Tokyo", country := "Japan" }
      { code := "XX", name := "Atlantis Air", country := "Atlantis", alliance := "None" }
      "jp").2.2.2 (by decide)).trans (by decide)

/-! ## C5 -/

/-- C5: a row below its format's minimum field count (or a blank line,
for the tab-delimited format) contributes no record and leaves the
records of the surrounding rows unchanged. -/
theorem short_rows_skipped :
    (∀ (rows₁ rows₂ : List (List String)) (r : List String), r.length < 2 →
      import_zip_to_market (rows₁ ++ r :: rows₂) = import_zip_to_market (rows₁ ++ rows₂)) ∧
    (∀ (rows₁ rows₂ : List (List String)) (r : List String), r.length < 3 →
      import_hospital_list (rows₁ ++ r :: rows₂) = import_hospital_list (rows₁ ++ rows₂)) ∧
    (∀ (lines₁ lines₂ : List String) (line : String),
      (pyStrip line = "" ∨ (pySplitStr "\t" (pyStrip line)).length < 2) →
      import_hospital_systems (lines₁ ++ line :: lines₂) =
        import_hospital_systems (lines₁ ++ lines₂)) := by
  refine ⟨?_, ?_, ?_⟩
  · intro rows₁ rows₂ r h
    have hv : validZipRows (rows₁ ++ r :: rows₂) = validZipRows (rows₁ ++ rows₂) := by
      simp [validZipRows, List.filter_append, List.filter_cons, Nat.not_le.mpr h]
    simp [import_zip_to_market, market_lookups, zip_lookups, sortedMarkets, markets, hv]
  · intro rows₁ rows₂ r h
    have hr : hospitalRow? r = none := by
      simp [hospitalRow?, Nat.not_le.mpr h]
    simp [import_hospital_list, List.filterMap_append, List.filterMap_cons, hr]
  · intro lines₁ lines₂ line h
    have hl : systemLine? line = none := by
      rcases h with h | h
      · simp [systemLine?, h]
      · simp [systemLine?, Nat.not_le.mpr h]
    simp [import_hospital_systems, List.filterMap_append, List.filterMap_cons, hl]

theorem short_rows_skipped_witness :
    import_zip_to_market [["a", "1"], ["bad"], ["b", "2"]] =
      import_zip_to_market [["a", "1"], ["b", "2"]] ∧
    import_hospital_list [["c", "x"], ["1", "", "Mercy"]] =
      import_hospital_list [["1", "", "Mercy"]] ∧
    import_hospital_systems ["Sys\t9", "   ", "Other\t3"] =
      import_hospital_systems ["Sys\t9", "Other\t3"] :=
  ⟨short_rows_skipped.1 [["a", "1"]] [["b", "2"]] ["bad"] (by decide),
   short_rows_skipped.2.1 [] [["1", "", "Mercy"]] ["c", "x"] (by decide),
   short_rows_skipped.2.2 ["Sys\t9"] ["Other\t3"] "   " (Or.inl (by decide))⟩

/-! ## C1 -/

/-- C1: one two-column run adds one child record per qualifying row plus
one parent record per distinct (trimmed) first-column value, and every
child's parent key is the key of a parent record of the same batch. -/
theorem zip_import_counts : ∀ rows : List (List String),
    import_zip_to_market rows = market_lookups rows ++ zip_lookups rows ∧
    (zip_lookups rows).length = (validZipRows rows).length ∧
    (market_lookups rows).length = (markets rows).length ∧
    ∀ c ∈ zip_lookups rows, ∃ p ∈ market_lookups rows, c.parent_key = some p.key := by
  intro rows
  refine ⟨rfl, List.length_map .., ?_, ?_⟩
  · simp [market_lookups, sortedMarkets,
          (List.perm_insertionSort (fun a b => a ≤ b) (markets rows)).length_eq]
  · intro c hc
    obtain ⟨r, hr, rfl⟩ := List.mem_map.mp hc
    refine ⟨marketLookup (rowMarketCode r), ?_, rfl⟩
    apply List.mem_map_of_mem
    simp only [sortedMarkets, List.mem_insertionSort, markets, List.mem_dedup]
    exact List.mem_map_of_mem _ hr

theorem zip_import_counts_witness :
    (zip_lookups [["A", "1"]]).length = 1 ∧
    (zipLookup ["A", "1"]).parent_key = some (marketLookup "A").key := by
  constructor
  · exact ((zip_import_counts [["A", "1"]]).2.1).trans (by decide)
  · obtain ⟨p, hp, hpk⟩ :=
      (zip_import_counts [["A", "1"]]).2.2.2 (zipLookup ["A", "1"]) (by decide)
    have hm : market_lookups [["A", "1"]] = [marketLookup "A"] := by decide
    rw [hm] at hp
    have : p = marketLookup "A" := by simpa using hp
    rw [← this]
    exact hpk

/-! ## C2 -/

/-- C2 counterexample: the row `["A", ""]` has two fields, so it passes
the field-count check, yet the child record it produces has an empty
key ("" is the trimmed second field). -/
theorem empty_key_counterexample :
    2 ≤ (["A", ""] : List String).length ∧
    (import_zip_to_market [["A", ""]]).map LookupRecord.key = ["A", ""] := by
  exact ⟨by decide, by decide⟩

/-- C2 amended: each record's key is the trimmed (or quote-stripped) key
field of its source row, hence non-empty whenever that field is
non-blank. -/
theorem keys_nonempty_of_fields_nonempty :
    (∀ rows : List (List String),
      (∀ r ∈ validZipRows rows, rowMarketCode r ≠ "" ∧ rowZipCode r ≠ "") →
      ∀ rec ∈ import_zip_to_market rows, rec.key ≠ "") ∧
    (∀ (row : List String) (rec : LookupRecord), hospitalRow? row = some rec →
      pyStripChar '"' (row.getD 0 "") ≠ "" → rec.key ≠ "") ∧
    (∀ (line : String) (rec : LookupRecord), systemLine? line = some rec →
      syscode line ≠ "" → rec.key ≠ "") := by
  refine ⟨?_, ?_, ?_⟩
  · intro rows hfields rec hrec
    rcases List.mem_append.mp hrec with hp | hc
    · obtain ⟨m, hm, rfl⟩ := List.mem_map.mp hp
      simp only [sortedMarkets, List.mem_insertionSort, markets, List.mem_dedup] at hm
      obtain ⟨r, hr, rfl⟩ := List.mem_map.mp hm
      exact (hfields r hr).1
    · obtain ⟨r, hr, rfl⟩ := List.mem_map.mp hc
      exact (hfields r hr).2
  · intro row rec h hk
    simp only [hospitalRow?] at h
    split at h
    · rw [← Option.some.inj h]
      exact hk
    · cases h
  · intro line rec h hk
    simp only [systemLine?] at h
    split at h
    · rw [← Option.some.inj h]
      exact hk
    · cases h

theorem keys_nonempty_witness :
    (marketLookup "A").key ≠ "" ∧
    (hospitalLookup ["12", "", "Mercy"]).key ≠ "" ∧
    (systemLookup (pyStrip "Sys\t9")).key ≠ "" :=
  ⟨keys_nonempty_of_fields_nonempty.1 [["A", "1"]] (by decide) (marketLookup "A") (by decide),
   keys_nonempty_of_fields_nonempty.2.1 ["12", "", "Mercy"] (hospitalLookup ["12", "", "Mercy"])
     rfl (by decide),
   keys_nonempty_of_fields_nonempty.2.2 "Sys\t9" (systemLookup (pyStrip "Sys\t9"))
     rfl (by decide)⟩

/-! ## C10 -/

/-- C10: the parent records of one two-column run are emitted in strictly
ascending lexicographic key order, and the parent sequence only depends
on the input rows up to permutation. -/
theorem parents_sorted_deterministic :
    (∀ rows : List (List String),
      ((market_lookups rows).map LookupRecord.key).Pairwise (· < ·)) ∧
    (∀ rows₁ rows₂ : List (List String), rows₁.Perm rows₂ →
      market_lookups rows₁ = market_lookups rows₂) := by
  constructor
  · intro rows
    have hkeys : (market_lookups rows).map LookupRecord.key = sortedMarkets rows := by
      simp [market_lookups, List.map_map]
      exact List.map_id _
    rw [hkeys]
    have hs : (sortedMarkets rows).Sorted (fun a b => a ≤ b) :=
      List.sorted_insertionSort (fun a b => a ≤ b) (markets rows)
    have hnd : (sortedMarkets rows).Nodup :=
      ((List.perm_insertionSort (fun a b => a ≤ b) (markets rows)).symm).nodup
        (List.nodup_dedup _)
    exact List.Sorted.lt_of_le hs hnd
  · intro rows₁ rows₂ hperm
    have hm : (markets rows₁).Perm (markets rows₂) :=
      (((hperm.filter _).map rowMarketCode)).dedup
    have hsort : sortedMarkets rows₁ = sortedMarkets rows₂ := by
      haveI : IsAntisymm String (fun a b => a ≤ b) := ⟨fun _ _ h h' => le_antisymm h h'⟩
      exact List.eq_of_perm_of_sorted
        (((List.perm_insertionSort _ _).trans hm).trans (List.perm_insertionSort _ _).symm)
        (List.sorted_insertionSort (fun a b => a ≤ b) (markets rows₁))
        (List.sorted_insertionSort (fun a b => a ≤ b) (markets rows₂))
    simp [market_lookups, hsort]

theorem parents_sorted_deterministic_witness :
    market_lookups [["b", "1"], ["a", "2"]] = market_lookups [["a", "2"], ["b", "1"]] :=
  parents_sorted_deterministic.2 [["b", "1"], ["a", "2"]] [["a", "2"], ["b", "1"]]
    (List.Perm.swap _ _ _)

/-! ## C9 -/

theorem parseReview_recordJson (r : LookupRecord) :
    parseReview (recordJson r) = some (reviewOf r) := rfl

theorem parseReviewList_map (lookups : List LookupRecord) :
    parseReviewList (lookups.map recordJson) = some (lookups.map reviewOf) := by
  induction lookups with
  | nil => rfl
  | cons r t ih => simp [parseReviewList, parseReview_recordJson, ih]

/-- C9: re-reading the review file written for any accumulated sequence
recovers, in order, exactly the records' namespace/key/value content. -/
theorem review_file_round_trip : ∀ lookups : List LookupRecord,
    load_from_json (save_to_json lookups) = some (lookups.map reviewOf) ∧
    (lookups.map reviewOf).length = lookups.length := by
  intro lookups
  exact ⟨parseReviewList_map lookups, List.length_map ..⟩

/-! ## C3: properties of the split -/

theorem consHead_ne_nil (c : Char) (L : List (List Char)) : consHead c L ≠ [] := by
  cases L <;> simp [consHead]

theorem splitFuel_ne_nil (sep : List Char) :
    ∀ (f : Nat) (l : List Char), splitFuel sep f l ≠ [] := by
  intro f
  induction f with
  | zero => intro l; cases l <;> simp [splitFuel]
  | succ f ih =>
    intro l
    cases l with
    | nil => simp [splitFuel]
    | cons c cs =>
      simp only [splitFuel]
      split
      · simp
      · exact consHead_ne_nil c _

theorem isPrefixOf_iff_ex : ∀ a b : List Char, a.isPrefixOf b = true ↔ ∃ t, b = a ++ t := by
  intro a
  induction a with
  | nil => intro b; simp [List.isPrefixOf]
  | cons c cs ih =>
    intro b
    cases b with
    | nil => simp [List.isPrefixOf]
    | cons d ds =>
      simp only [List.isPrefixOf, Bool.and_eq_true, beq_iff_eq, ih, List.cons_append,
        List.cons.injEq]
      constructor
      · rintro ⟨rfl, t, rfl⟩
        exact ⟨t, rfl, rfl⟩
      · rintro ⟨t, rfl, rfl⟩
        exact ⟨rfl, t, rfl⟩

theorem isEmpty_false_of_ne_nil {sep : List Char} (hsep : sep ≠ []) : sep.isEmpty = false := by
  cases sep with
  | nil => exact absurd rfl hsep
  | cons s ss => rfl

theorem head_sep_decomp {sep : List Char} {c : Char} {cs : List Char} (hsep : sep ≠ [])
    (h : sep.isPrefixOf (c :: cs) = true) :
    c :: cs = sep ++ cs.drop (sep.length - 1) := by
  obtain ⟨t, ht⟩ := (isPrefixOf_iff_ex sep (c :: cs)).mp h
  have hd : (c :: cs).drop sep.length = t := by
    rw [ht]
    exact List.drop_left ..
  cases sep with
  | nil => exact absurd rfl hsep
  | cons s ss =>
    have : cs.drop ((s :: ss).length - 1) = t := by
      rw [← hd]
      simp
    rw [this]
    exact ht

theorem joinWithL_consHead (sep : List Char) (c : Char) (L : List (List Char)) (h : L ≠ []) :
    joinWithL sep (consHead c L) = c :: joinWithL sep L := by
  cases L with
  | nil => exact absurd rfl h
  | cons p ps =>
    cases ps with
    | nil => simp [consHead, joinWithL]
    | cons q qs => simp [consHead, joinWithL]

theorem joinWithL_splitFuel (sep : List Char) (hsep : sep ≠ []) :
    ∀ (f : Nat) (l : List Char), l.length ≤ f →
      joinWithL sep (splitFuel sep f l) = l := by
  intro f
  induction f with
  | zero =>
    intro l hl
    have : l = [] := List.eq_nil_of_length_eq_zero (Nat.le_zero.mp hl)
    subst this
    rfl
  | succ f ih =>
    intro l hl
    cases l with
    | nil => rfl
    | cons c cs =>
      have hcs : cs.length ≤ f := Nat.succ_le_succ_iff.mp hl
      by_cases hpre : sep.isPrefixOf (c :: cs) = true
      · have hcond : (sep.isPrefixOf (c :: cs) && !sep.isEmpty) = true := by
          simp [hpre, isEmpty_false_of_ne_nil hsep]
        have hrest : (cs.drop (sep.length - 1)).length ≤ f := by
          rw [List.length_drop]
          exact le_trans (Nat.sub_le ..) hcs
        have hjoin : joinWithL sep (splitFuel sep f (cs.drop (sep.length - 1))) =
            cs.drop (sep.length - 1) := ih _ hrest
        rcases hX : splitFuel sep f (cs.drop (sep.length - 1)) with _ | ⟨p, ps⟩
        · exact absurd hX (splitFuel_ne_nil sep f _)
        · rw [hX] at hjoin
          simp only [splitFuel, hcond, if_pos rfl]
          rw [hX]
          simp only [joinWithL, List.nil_append]
          rw [hjoin]
          exact (head_sep_decomp hsep hpre).symm
      · have hcond : (sep.isPrefixOf (c :: cs) && !sep.isEmpty) = false := by
          simp [Bool.eq_false_iff.mpr hpre]
        simp only [splitFuel, hcond]
        rw [if_neg Bool.false_ne_true]
        rw [joinWithL_consHead sep c _ (splitFuel_ne_nil sep f cs), ih cs hcs]

theorem splitFuel_headD_ex (sep : List Char) :
    ∀ (f : Nat) (l : List Char), ∃ t, l = (splitFuel sep f l).headD [] ++ t := by
  intro f
  induction f with
  | zero =>
    intro l
    cases l with
    | nil => exact ⟨[], rfl⟩
    | cons c cs => exact ⟨[], by simp [splitFuel]⟩
  | succ f ih =>
    intro l
    cases l with
    | nil => exact ⟨[], rfl⟩
    | cons c cs =>
      simp only [splitFuel]
      split
      · exact ⟨c :: cs, rfl⟩
      · obtain ⟨t, ht⟩ := ih cs
        rcases hX : splitFuel sep f cs with _ | ⟨p, ps⟩
        · exact absurd hX (splitFuel_ne_nil sep f cs)
        · rw [hX] at ht
          refine ⟨t, ?_⟩
          simp only [consHead, List.headD_cons]
          simp only [List.headD_cons] at ht
          rw [List.cons_append, ← ht]

theorem splitFuel_parts_free (sep : List Char) (hsep : sep ≠ []) :
    ∀ (f : Nat) (l : List Char), l.length ≤ f →
      ∀ p ∈ splitFuel sep f l, containsSub sep p = false := by
  intro f
  induction f with
  | zero =>
    intro l hl p hp
    have : l = [] := List.eq_nil_of_length_eq_zero (Nat.le_zero.mp hl)
    subst this
    simp only [splitFuel, List.mem_singleton] at hp
    subst hp
    simp [containsSub, isEmpty_false_of_ne_nil hsep]
  | succ f ih =>
    intro l hl p hp
    cases l with
    | nil =>
      simp only [splitFuel, List.mem_singleton] at hp
      subst hp
      simp [containsSub, isEmpty_false_of_ne_nil hsep]
    | cons c cs =>
      have hcs : cs.length ≤ f := Nat.succ_le_succ_iff.mp hl
      by_cases hpre : sep.isPrefixOf (c :: cs) = true
      · have hcond : (sep.isPrefixOf (c :: cs) && !sep.isEmpty) = true := by
          simp [hpre, isEmpty_false_of_ne_nil hsep]
        rw [splitFuel, hcond, if_pos rfl] at hp
        rcases List.mem_cons.mp hp with rfl | hmem
        · simp [containsSub, isEmpty_false_of_ne_nil hsep]
        · have hrest : (cs.drop (sep.length - 1)).length ≤ f := by
            rw [List.length_drop]
            exact le_trans (Nat.sub_le ..) hcs
          exact ih _ hrest p hmem
      · have hcond : (sep.isPrefixOf (c :: cs) && !sep.isEmpty) = false := by
          simp [Bool.eq_false_iff.mpr hpre]
        rw [splitFuel, hcond, if_neg Bool.false_ne_true] at hp
        rcases hX : splitFuel sep f cs with _ | ⟨q, qs⟩
        · exact absurd hX (splitFuel_ne_nil sep f cs)
        · rw [hX, consHead] at hp
          rcases List.mem_cons.mp hp with rfl | hmem
          · have hq : containsSub sep q = false :=
              ih cs hcs q (hX ▸ List.mem_cons_self q qs)
            have hqpre : sep.isPrefixOf (c :: q) = false := by
              rw [Bool.eq_false_iff]
              intro habs
              obtain ⟨t, ht⟩ := (isPrefixOf_iff_ex sep (c :: q)).mp habs
              obtain ⟨u, hu⟩ := splitFuel_headD_ex sep f cs
              rw [hX] at hu
              simp only [List.headD_cons] at hu
              have : c :: cs = sep ++ (t ++ u) := by
                rw [hu, ← List.append_assoc, ← ht]
                rfl
              exact (Bool.eq_false_iff.mp (Bool.eq_false_iff.mpr hpre))
                ((isPrefixOf_iff_ex sep (c :: cs)).mpr ⟨t ++ u, this⟩)
            simp [containsSub, hqpre, hq]
          · exact ih cs hcs p (hX ▸ List.mem_cons_of_mem q hmem)

theorem splitFuel_no_occ (sep : List Char) :
    ∀ (f : Nat) (l : List Char), l.length ≤ f → containsSub sep l = false →
      splitFuel sep f l = [l] := by
  intro f
  induction f with
  | zero =>
    intro l hl _
    have : l = [] := List.eq_nil_of_length_eq_zero (Nat.le_zero.mp hl)
    subst this
    rfl
  | succ f ih =>
    intro l hl hno
    cases l with
    | nil => rfl
    | cons c cs =>
      have hcs : cs.length ≤ f := Nat.succ_le_succ_iff.mp hl
      simp only [containsSub, Bool.or_eq_false_iff] at hno
      have hcond : (sep.isPrefixOf (c :: cs) && !sep.isEmpty) = false := by
        simp [hno.1]
      rw [splitFuel, hcond, if_neg Bool.false_ne_true, ih cs hcs hno.2]
      rfl

theorem joinWith_map_mk (sepL : List Char) :
    ∀ L : List (List Char),
      joinWith (String.mk sepL) (L.map String.mk) = String.mk (joinWithL sepL L) := by
  intro L
  induction L with
  | nil => rfl
  | cons x xs ih =>
    cases xs with
    | nil => rfl
    | cons y ys =>
      simp only [List.map_cons, joinWith, joinWithL]
      simp only [List.map_cons] at ih
      rw [ih]
      rfl

theorem headD_irrel {α : Type} (L : List α) (h : L ≠ []) (a b : α) :
    L.headD a = L.headD b := by
  cases L with
  | nil => exact absurd rfl h
  | cons x xs => rfl

/-! ## C3 theorems -/

/-- C3 counterexample: the row whose third field is `"A - B - C"` passes
the field-count check and yields location `"B"` (the segment between the
first and second separators), not `"B - C"` (the whole remainder after
the first separator). -/
theorem third_field_split_counterexample :
    (import_hospital_list [["1", "", "A - B - C"]]).map (fun rec => metaStr rec "location") =
      [some "B"] ∧ "B" ≠ "B - C" :=
  ⟨by decide, by decide⟩

/-- C3 amended: the third field is split on every occurrence of `" - "`
into separator-free segments whose rejoining restores the field;
`metadata.name` is the first segment and `metadata.location` is the
second segment when one exists (and `""` otherwise, in particular
whenever the separator is absent). -/
theorem third_field_name_location : ∀ row : List String, 3 ≤ row.length →
    ∃ parts : List String,
      parts = pySplitStr " - " (pyStripChar '"' (row.getD 2 "")) ∧
      parts ≠ [] ∧
      joinWith " - " parts = pyStripChar '"' (row.getD 2 "") ∧
      (∀ p ∈ parts, strContains " - " p = false) ∧
      metaStr (hospitalLookup row) "name" = some (parts.headD "") ∧
      metaStr (hospitalLookup row) "location" = some ((parts.drop 1).headD "") ∧
      (strContains " - " (pyStripChar '"' (row.getD 2 "")) = false →
        parts = [pyStripChar '"' (row.getD 2 "")]) := by
  intro row hrow
  have hsep : (" - " : String).data ≠ [] := by decide
  have hne : pySplitStr " - " (pyStripChar '"' (row.getD 2 "")) ≠ [] := by
    simp only [pySplitStr, pySplitL, ne_eq, List.map_eq_nil_iff]
    exact splitFuel_ne_nil _ _ _
  refine ⟨pySplitStr " - " (pyStripChar '"' (row.getD 2 "")), rfl, hne, ?_, ?_, ?_, ?_, ?_⟩
  · show joinWith " - " ((pySplitL (" - " : String).data
        (pyStripChar '"' (row.getD 2 "")).data).map String.mk) = _
    rw [joinWith_map_mk]
    simp only [pySplitL]
    rw [joinWithL_splitFuel _ hsep _ _ (le_refl _)]
  · intro p hp
    obtain ⟨q, hq, rfl⟩ := List.mem_map.mp hp
    exact splitFuel_parts_free _ hsep _ _ (le_refl _) q hq
  · show metaStr (hospitalLookup row) "name" =
      some ((pySplitStr " - " (pyStripChar '"' (row.getD 2 ""))).headD "")
    have : metaStr (hospitalLookup row) "name" =
        some ((pySplitStr " - " (pyStripChar '"' (row.getD 2 ""))).headD
          (pyStripChar '"' (row.getD 2 ""))) := rfl
    rw [this, headD_irrel _ hne]
  · rfl
  · intro hno
    show (pySplitL (" - " : String).data (pyStripChar '"' (row.getD 2 "")).data).map String.mk = _
    simp only [pySplitL]
    rw [splitFuel_no_occ _ _ _ (le_refl _) hno]
    rfl

theorem third_field_name_location_witness :
    metaStr (hospitalLookup ["10", "", "Mercy Hospital - Springfield"]) "name" =
      some "Mercy Hospital" ∧
    metaStr (hospitalLookup ["10", "", "Mercy Hospital - Springfield"]) "location" =
      some "Springfield" ∧
    metaStr (hospitalLookup ["11", "", "Plain Clinic"]) "location" = some "" := by
  obtain ⟨parts, hparts, -, -, -, hname, hloc, -⟩ :=
    third_field_name_location ["10", "", "Mercy Hospital - Springfield"] (by decide)
  subst hparts
  obtain ⟨parts2, hparts2, -, -, -, -, hloc2, -⟩ :=
    third_field_name_location ["11", "", "Plain Clinic"] (by decide)
  subst hparts2
  exact ⟨hname.trans (by decide), hloc.trans (by decide), hloc2.trans (by decide)⟩
